import Mathlib

/-!
Verification of the JSON-to-JavaScript converter (`src/index.ts`).

The development shallowly embeds the converter: the multiline-eligibility
classifier `shouldConvertMultiline`, the JSON serialization pass with marker
substitution, the template-literal escaping chain, and the marker-resolution
loop of `jsonToJavascript`.  Strings are modelled as `List Char` where
convenient; machine behaviour of JavaScript's `String.prototype.replace`
(including its `$`-substitution patterns) is modelled explicitly.
-/

namespace J2J

/-- The backtick character (written via its code point). -/
def backtickChar : Char := Char.ofNat 96

/-- The apostrophe character (written via its code point). -/
def aposChar : Char := Char.ofNat 39

/-- JavaScript `value.includes(c)` for a single-character needle:
containment of the character in the string. -/
def containsChar (s : String) (c : Char) : Bool := s.data.contains c

/-- Embedding of `shouldConvertMultiline` (src/index.ts lines 127-131):
`value.includes("\n") && !value.includes("\r")`. -/
def shouldConvertMultiline (value : String) : Bool :=
  containsChar value '\n' && !(containsChar value '\r')

/-- `listStarts hay needle`: `hay` begins with `needle`. -/
def listStarts : List Char → List Char → Bool
  | _, [] => true
  | [], _ :: _ => false
  | h :: hs, n :: ns => h == n && listStarts hs ns

/-- `containsSub needle hay`: `needle` occurs contiguously inside `hay`
(JavaScript `hay.includes(needle)`). -/
def containsSub (needle : List Char) : List Char → Bool
  | [] => needle.isEmpty
  | c :: rest => listStarts (c :: rest) needle || containsSub needle rest

/-- JavaScript regular-expression whitespace class `\s`. -/
def jsWS (c : Char) : Bool :=
  c.toNat = 9 || c.toNat = 10 || c.toNat = 11 || c.toNat = 12 ||
  c.toNat = 13 || c.toNat = 32 || c.toNat = 0xA0 || c.toNat = 0x1680 ||
  (0x2000 ≤ c.toNat && c.toNat ≤ 0x200A) || c.toNat = 0x2028 ||
  c.toNat = 0x2029 || c.toNat = 0x202F || c.toNat = 0x205F ||
  c.toNat = 0x3000 || c.toNat = 0xFEFF

/-- The first line of a string (text before the first LF); used to state the
spec's shape conditions on the classifier. -/
def firstLineOf (s : String) : List Char := s.data.takeWhile (fun c => c ≠ '\n')

/-- The last line of a string (text after the last LF). -/
def lastLineOf (s : String) : List Char :=
  (s.data.reverse.takeWhile (fun c => c ≠ '\n')).reverse

/-- Whether a line ends in a whitespace character. -/
def hasTrailingWS (l : List Char) : Bool :=
  match l.getLast? with
  | some c => jsWS c
  | none => false

theorem listStarts_cons_mem {a : Char} {hay needle : List Char}
    (h : listStarts hay (a :: needle) = true) : a ∈ hay := by
  cases hay with
  | nil => simp [listStarts] at h
  | cons c rest =>
      simp only [listStarts, Bool.and_eq_true, beq_iff_eq] at h
      exact h.1 ▸ List.mem_cons_self c rest

theorem mem_of_containsSub_cons {a : Char} {needle hay : List Char}
    (h : containsSub (a :: needle) hay = true) : a ∈ hay := by
  induction hay with
  | nil => simp [containsSub, List.isEmpty] at h
  | cons c rest ih =>
      simp only [containsSub, Bool.or_eq_true] at h
      rcases h with h | h
      · exact listStarts_cons_mem h
      · exact List.mem_cons_of_mem c (ih h)

theorem shouldConvert_false_of_cr {s : String} (h : '\r' ∈ s.data) :
    shouldConvertMultiline s = false := by
  simp [shouldConvertMultiline, containsChar, h]

/-- Claim C9: every string containing a carriage return — including a bare CR
not followed by LF — is rejected by `shouldConvertMultiline`, even when the
string also contains a newline. -/
theorem cr_excluded (s : String) (h : '\r' ∈ s.data) :
    shouldConvertMultiline s = false := by
  simp [shouldConvertMultiline, containsChar, h]

/-- Witness for C9 at the concrete string "a\rb\nc" (bare CR plus a newline). -/
theorem cr_excluded_witness :
    ('\r' ∈ ("a\rb\nc" : String).data) ∧ ('\n' ∈ ("a\rb\nc" : String).data) ∧
      shouldConvertMultiline "a\rb\nc" = false :=
  ⟨by decide, by decide, cr_excluded "a\rb\nc" (by decide)⟩

/-- Claim C7: a string with no newline character is never eligible; in
particular `shouldConvertMultiline` rejects the empty string. -/
theorem no_newline_not_converted (s : String) (h : '\n' ∉ s.data) :
    shouldConvertMultiline s = false := by
  simp [shouldConvertMultiline, containsChar, h]

/-- Witness for C7 at the empty string. -/
theorem no_newline_not_converted_witness :
    ('\n' ∉ ("" : String).data) ∧ shouldConvertMultiline "" = false :=
  ⟨by decide, no_newline_not_converted "" (by decide)⟩

/-- Counterexample to claim C1 as stated: the string "`$\\\nx" contains a
backtick, a dollar sign and a backslash, yet `shouldConvertMultiline` accepts
it (the classifier only checks for a newline and the absence of CR). -/
theorem backtick_dollar_backslash_convertible_cex :
    containsChar "`$\\\nx" backtickChar = true ∧
      containsChar "`$\\\nx" '$' = true ∧
      containsChar "`$\\\nx" (Char.ofNat 92) = true ∧
      shouldConvertMultiline "`$\\\nx" = true := by
  refine ⟨by decide, by decide, by decide, by decide⟩

/-- Claim C1 (amended): only the CRLF part of the exclusion holds — every
string containing a CR-LF sequence is rejected by `shouldConvertMultiline`;
backtick, dollar sign and backslash do not by themselves cause rejection. -/
theorem crlf_excluded (s : String)
    (h : containsSub ['\r', '\n'] s.data = true) :
    shouldConvertMultiline s = false :=
  shouldConvert_false_of_cr (mem_of_containsSub_cons h)

/-- Witness for the amended C1 at the concrete string "a\r\nb". -/
theorem crlf_excluded_witness :
    containsSub ['\r', '\n'] ("a\r\nb" : String).data = true ∧
      shouldConvertMultiline "a\r\nb" = false :=
  ⟨by decide, crlf_excluded "a\r\nb" (by decide)⟩

/-- Counterexample to claim C2 as stated: the string "\na" has an empty first
line, yet `shouldConvertMultiline` accepts it — the classifier never inspects
line shape. -/
theorem blank_first_line_convertible_cex :
    firstLineOf "\na" = [] ∧ shouldConvertMultiline "\na" = true :=
  ⟨by decide, by decide⟩

/-- Claim C2 (amended): strings with an empty first line, an empty last line,
or trailing whitespace on the last line are not excluded by the classifier;
whenever such a string contains a newline and no carriage return,
`shouldConvertMultiline` returns true. -/
theorem shape_conditions_not_excluded (s : String)
    (_hshape : firstLineOf s = [] ∨ lastLineOf s = [] ∨
      hasTrailingWS (lastLineOf s) = true)
    (hn : '\n' ∈ s.data) (hr : '\r' ∉ s.data) :
    shouldConvertMultiline s = true := by
  simp [shouldConvertMultiline, containsChar, hn, hr]

/-- Witness for the amended C2 at the concrete string "\na". -/
theorem shape_conditions_not_excluded_witness :
    (firstLineOf "\na" = [] ∨ lastLineOf "\na" = [] ∨
      hasTrailingWS (lastLineOf "\na") = true) ∧
      shouldConvertMultiline "\na" = true :=
  ⟨Or.inl (by decide),
    shape_conditions_not_excluded "\na" (Or.inl (by decide)) (by decide)
      (by decide)⟩

/-- The opening-brace character (written via its code point). -/
def braceOpen : Char := Char.ofNat 123

/-- Fueled worker for `replaceAllL`; the fuel argument only forces structural
recursion (each step consumes at least one character, so `fuel = length`
always suffices). -/
def replaceAllAux (needle repl : List Char) : Nat → List Char → List Char
  | 0, l => l
  | _ + 1, [] => []
  | fuel + 1, c :: rest =>
    if listStarts (c :: rest) needle = true ∧ needle ≠ [] then
      repl ++ replaceAllAux needle repl fuel ((c :: rest).drop needle.length)
    else
      c :: replaceAllAux needle repl fuel rest

/-- JavaScript `hay.replaceAll(needle, repl)` for a nonempty string `needle`:
non-overlapping left-to-right replacement of every occurrence.  (All
`replaceAll` replacement strings used by the source contain no active
`$`-substitution sequence, so literal splicing coincides with the JS
semantics; the empty-needle behaviour of JS is never exercised.) -/
def replaceAllL (needle repl l : List Char) : List Char :=
  replaceAllAux needle repl l.length l

/-- ES `GetSubstitution` for a string-valued pattern: in the replacement
string, `$$`, `$&`, a dollar followed by a backtick, and a dollar followed
by an apostrophe expand to a literal dollar, the matched text, the text
before the match, and the text after the match; any other `$` is literal. -/
def substDollar (matched before after : List Char) : List Char → List Char
  | [] => []
  | c :: rest =>
    if c = '$' then
      match rest with
      | [] => [c]
      | d :: rest2 =>
        if d = '$' then '$' :: substDollar matched before after rest2
        else if d = '&' then matched ++ substDollar matched before after rest2
        else if d = backtickChar then before ++ substDollar matched before after rest2
        else if d = aposChar then after ++ substDollar matched before after rest2
        else c :: d :: substDollar matched before after rest2
    else c :: substDollar matched before after rest

/-- Worker for `replaceFirstSub`; `pre` accumulates (reversed) the already
scanned text. -/
def rfsAux (needle repl : List Char) : List Char → List Char → List Char
  | pre, [] => pre.reverse
  | pre, c :: rest =>
    if listStarts (c :: rest) needle = true ∧ needle ≠ [] then
      pre.reverse ++
        substDollar needle pre.reverse ((c :: rest).drop needle.length) repl ++
        (c :: rest).drop needle.length
    else rfsAux needle repl (c :: pre) rest

/-- JavaScript `text.replace(needle, repl)` for a nonempty string `needle`:
replaces the first occurrence of `needle`, applying the `$`-substitution
patterns of `GetSubstitution` to `repl`; returns `text` unchanged when
`needle` does not occur. -/
def replaceFirstSub (needle repl text : List Char) : List Char :=
  rfsAux needle repl [] text

/-- Literal first-occurrence replacement (no `$`-substitution); used to state
what the splice amounts to when the replacement has no active `$`-sequence. -/
def rflAux (needle repl : List Char) : List Char → List Char → List Char
  | pre, [] => pre.reverse
  | pre, c :: rest =>
    if listStarts (c :: rest) needle = true ∧ needle ≠ [] then
      pre.reverse ++ repl ++ (c :: rest).drop needle.length
    else rflAux needle repl (c :: pre) rest

/-- Literal variant of `replaceFirstSub`. -/
def replaceFirstLit (needle repl text : List Char) : List Char :=
  rflAux needle repl [] text

/-- `true` when the list contains no `$` immediately followed by `$`, `&`,
a backtick, or an apostrophe — i.e. no active `GetSubstitution` sequence. -/
def noActiveDollar : List Char → Bool
  | [] => true
  | c :: rest =>
    if c = '$' then
      match rest with
      | [] => true
      | d :: rest2 =>
        if d = '$' ∨ d = '&' ∨ d = backtickChar ∨ d = aposChar then false
        else noActiveDollar rest2
    else noActiveDollar rest

/-- The temporary sentinel used by the source's escape chain
(`__TEMP_TEMPLATE_START__`). -/
def sentinelStr : String := "__TEMP_TEMPLATE_START__"

/-- Embedding of the escape chain of `jsonToJavascript`
(src/index.ts lines 205-210): escape backslashes, then backticks, swap
`$`-brace for the sentinel, escape remaining dollars, then restore the
sentinel as an escaped interpolation start. -/
def escapeBody (s : String) : String :=
  ⟨replaceAllL sentinelStr.data ['\\', '$', braceOpen]
    (replaceAllL ['$'] ['\\', '$']
      (replaceAllL ['$', braceOpen] sentinelStr.data
        (replaceAllL [backtickChar] ['\\', backtickChar]
          (replaceAllL ['\\'] ['\\', '\\'] s.data))))⟩

/-- Interpretation of escaped template-literal content, undoing the escape
sequences for backslash, backtick and dollar (hence also the escaped
interpolation start); stated from the claim's wording. -/
def templUnescape : List Char → List Char
  | [] => []
  | c :: rest =>
    if c = '\\' then
      match rest with
      | [] => [c]
      | d :: rest2 =>
        if d = '\\' ∨ d = backtickChar ∨ d = '$' then d :: templUnescape rest2
        else c :: d :: templUnescape rest2
    else c :: templUnescape rest

/-- Claim C8: the escaping is NOT un-escapable for every string — the
sentinel trick rewrites a literal occurrence of the sentinel text into an
escaped interpolation start.  At the failing input
"__TEMP_TEMPLATE_START__\nx" the escaped body is "\$\x7b\nx", which
un-escapes to "$\x7b\nx", not to the original string. -/
theorem escape_roundtrip_fails_on_sentinel :
    escapeBody "__TEMP_TEMPLATE_START__\nx" = "\\$\x7b\nx" ∧
      templUnescape (escapeBody "__TEMP_TEMPLATE_START__\nx").data ≠
        ("__TEMP_TEMPLATE_START__\nx" : String).data ∧
      shouldConvertMultiline "__TEMP_TEMPLATE_START__\nx" = true := by
  refine ⟨by decide, by decide, by decide⟩

/-- Lowercase hexadecimal digit, for JSON control-character escapes. -/
def hexDigit (n : Nat) : Char :=
  if n < 10 then Char.ofNat (48 + n) else Char.ofNat (87 + n)

/-- ES `QuoteJSONString` escaping of a single character. -/
def escJsonChar (c : Char) : List Char :=
  if c = '"' then ['\\', '"']
  else if c = '\\' then ['\\', '\\']
  else if c = Char.ofNat 8 then ['\\', 'b']
  else if c = Char.ofNat 12 then ['\\', 'f']
  else if c = '\n' then ['\\', 'n']
  else if c = '\r' then ['\\', 'r']
  else if c = '\t' then ['\\', 't']
  else if c.toNat < 32 then
    ['\\', 'u', '0', '0', hexDigit (c.toNat / 16), hexDigit (c.toNat % 16)]
  else [c]

/-- ES `QuoteJSONString`: a double-quoted, escaped JSON string literal. -/
def quoteJson (s : String) : String :=
  ⟨'"' :: s.data.foldr (fun c acc => escJsonChar c ++ acc) ['"']⟩

/-- The `space` argument of `JSON.stringify`: a number or a string. -/
inductive SpaceArg where
  | num (n : Int)
  | str (s : String)
deriving DecidableEq

/-- The `gap` computed by `JSON.stringify` from its `space` argument:
a numeric space yields `min 10 (max 0 space)` space characters, a string
space is truncated to its first 10 characters. -/
def gapOf : Option SpaceArg → String
  | none => ""
  | some (.num n) => ⟨List.replicate (min 10 (max 0 n)).toNat ' '⟩
  | some (.str s) => ⟨s.data.take 10⟩

mutual
/-- JSON values (the data model of the converter): null, booleans, numbers
(integral, sufficient for the claims), strings, arrays, and objects with
insertion-ordered fields. -/
inductive Json where
  | null : Json
  | bool (b : Bool) : Json
  | num (n : Int) : Json
  | str (s : String) : Json
  | arr (xs : JsonList) : Json
  | obj (fs : JsonFields) : Json

/-- Ordered list of array elements. -/
inductive JsonList where
  | nil : JsonList
  | cons (hd : Json) (tl : JsonList) : JsonList

/-- Insertion-ordered object fields. -/
inductive JsonFields where
  | nil : JsonFields
  | cons (k : String) (v : Json) (tl : JsonFields) : JsonFields
end

mutual
/-- `JSON.stringify` with the marker-substituting replacer of
`jsonToJavascript` (src/index.ts lines 169-184) and no user-supplied
replacer: every string value accepted by `shouldConvertMultiline` (when
`u` = `useDedent` is on) is replaced by `marker ++ index` and collected.
Returns the serialized text, the updated marker counter, and the collected
multiline strings in traversal order. -/
def serVal (u : Bool) (marker gap ind : String) :
    Json → Nat → String × Nat × List String
  | .null, n => ("null", n, [])
  | .bool b, n => (if b then "true" else "false", n, [])
  | .num i, n => (toString i, n, [])
  | .str s, n =>
      if u && shouldConvertMultiline s then
        (quoteJson (marker ++ toString n), n + 1, [s])
      else (quoteJson s, n, [])
  | .arr .nil, n => ("[]", n, [])
  | .arr (.cons h t), n =>
      let r := serItems u marker gap (ind ++ gap) (JsonList.cons h t) n
      (if gap.isEmpty then "[" ++ r.1 ++ "]"
       else "[\n" ++ (ind ++ gap) ++ r.1 ++ "\n" ++ ind ++ "]",
       r.2.1, r.2.2)
  | .obj .nil, n => ("\x7b\x7d", n, [])
  | .obj (.cons k v t), n =>
      let r := serFields u marker gap (ind ++ gap) (JsonFields.cons k v t) n
      (if gap.isEmpty then "\x7b" ++ r.1 ++ "\x7d"
       else "\x7b\n" ++ (ind ++ gap) ++ r.1 ++ "\n" ++ ind ++ "\x7d",
       r.2.1, r.2.2)

/-- Array elements, joined by `","` (compact) or `",\n" ++ ind1` (pretty). -/
def serItems (u : Bool) (marker gap ind1 : String) :
    JsonList → Nat → String × Nat × List String
  | .nil, n => ("", n, [])
  | .cons h t, n =>
      let r1 := serVal u marker gap ind1 h n
      match t with
      | .nil => r1
      | .cons h2 t2 =>
          let r2 := serItems u marker gap ind1 (JsonList.cons h2 t2) r1.2.1
          ((r1.1 ++ (if gap.isEmpty then "," else ",\n" ++ ind1) ++ r2.1),
           r2.2.1, r1.2.2 ++ r2.2.2)

/-- Object members `"key": value`, joined like array elements; the colon is
followed by a space exactly when a gap is in effect. -/
def serFields (u : Bool) (marker gap ind1 : String) :
    JsonFields → Nat → String × Nat × List String
  | .nil, n => ("", n, [])
  | .cons k v t, n =>
      let r1 := serVal u marker gap ind1 v n
      let m1 := quoteJson k ++ (if gap.isEmpty then ":" else ": ") ++ r1.1
      match t with
      | .nil => (m1, r1.2.1, r1.2.2)
      | .cons k2 v2 t2 =>
          let r2 := serFields u marker gap ind1 (JsonFields.cons k2 v2 t2) r1.2.1
          ((m1 ++ (if gap.isEmpty then "," else ",\n" ++ ind1) ++ r2.1),
           r2.2.1, r1.2.2 ++ r2.2.2)
end

mutual
/-- The marker counter returned by serialization advances by exactly the
number of collected multiline strings. -/
theorem serVal_count (u : Bool) (marker gap ind : String) :
    ∀ (j : Json) (n : Nat),
      (serVal u marker gap ind j n).2.1 = n + (serVal u marker gap ind j n).2.2.length
  | .null, n => by simp [serVal]
  | .bool b, n => by simp [serVal]
  | .num i, n => by simp [serVal]
  | .str s, n => by
      by_cases hc : (u && shouldConvertMultiline s) = true <;>
        simp [serVal, hc]
  | .arr .nil, n => by simp [serVal]
  | .arr (.cons h t), n => by
      simpa [serVal] using serItems_count u marker gap (ind ++ gap) (JsonList.cons h t) n
  | .obj .nil, n => by simp [serVal]
  | .obj (.cons k v t), n => by
      simpa [serVal] using serFields_count u marker gap (ind ++ gap) (JsonFields.cons k v t) n

theorem serItems_count (u : Bool) (marker gap ind1 : String) :
    ∀ (xs : JsonList) (n : Nat),
      (serItems u marker gap ind1 xs n).2.1 =
        n + (serItems u marker gap ind1 xs n).2.2.length
  | .nil, n => by simp [serItems]
  | .cons h .nil, n => by
      simpa [serItems] using serVal_count u marker gap ind1 h n
  | .cons h (.cons h2 t2), n => by
      have h1 := serVal_count u marker gap ind1 h n
      have h2' := serItems_count u marker gap ind1 (JsonList.cons h2 t2)
        (serVal u marker gap ind1 h n).2.1
      simp only [serItems]
      simp only [List.length_append]
      omega

theorem serFields_count (u : Bool) (marker gap ind1 : String) :
    ∀ (fs : JsonFields) (n : Nat),
      (serFields u marker gap ind1 fs n).2.1 =
        n + (serFields u marker gap ind1 fs n).2.2.length
  | .nil, n => by simp [serFields]
  | .cons k v .nil, n => by
      simpa [serFields] using serVal_count u marker gap ind1 v n
  | .cons k v (.cons k2 v2 t2), n => by
      have h1 := serVal_count u marker gap ind1 v n
      have h2' := serFields_count u marker gap ind1 (JsonFields.cons k2 v2 t2)
        (serVal u marker gap ind1 v n).2.1
      simp only [serFields]
      simp only [List.length_append]
      omega
end

mutual
/-- With `useDedent` off, serialization collects nothing and leaves the
marker counter unchanged. -/
theorem serVal_noDedent (marker gap ind : String) :
    ∀ (j : Json) (n : Nat), (serVal false marker gap ind j n).2 = (n, [])
  | .null, n => by simp [serVal]
  | .bool b, n => by simp [serVal]
  | .num i, n => by simp [serVal]
  | .str s, n => by simp [serVal]
  | .arr .nil, n => by simp [serVal]
  | .arr (.cons h t), n => by
      simpa [serVal] using serItems_noDedent marker gap (ind ++ gap) (JsonList.cons h t) n
  | .obj .nil, n => by simp [serVal]
  | .obj (.cons k v t), n => by
      simpa [serVal] using serFields_noDedent marker gap (ind ++ gap) (JsonFields.cons k v t) n

theorem serItems_noDedent (marker gap ind1 : String) :
    ∀ (xs : JsonList) (n : Nat), (serItems false marker gap ind1 xs n).2 = (n, [])
  | .nil, n => by simp [serItems]
  | .cons h .nil, n => by
      simpa [serItems] using serVal_noDedent marker gap ind1 h n
  | .cons h (.cons h2 t2), n => by
      have h1 := serVal_noDedent marker gap ind1 h n
      have h2' := serItems_noDedent marker gap ind1 (JsonList.cons h2 t2)
        (serVal false marker gap ind1 h n).2.1
      have e1 : (serVal false marker gap ind1 h n).2.1 = n := by rw [h1]
      rw [e1] at h2'
      simp only [serItems]
      rw [e1]
      simp [h2', show (serVal false marker gap ind1 h n).2.2 = [] from by rw [h1]]

theorem serFields_noDedent (marker gap ind1 : String) :
    ∀ (fs : JsonFields) (n : Nat), (serFields false marker gap ind1 fs n).2 = (n, [])
  | .nil, n => by simp [serFields]
  | .cons k v .nil, n => by
      simpa [serFields] using serVal_noDedent marker gap ind1 v n
  | .cons k v (.cons k2 v2 t2), n => by
      have h1 := serVal_noDedent marker gap ind1 v n
      have h2' := serFields_noDedent marker gap ind1 (JsonFields.cons k2 v2 t2)
        (serVal false marker gap ind1 v n).2.1
      have e1 : (serVal false marker gap ind1 v n).2.1 = n := by rw [h1]
      rw [e1] at h2'
      simp only [serFields]
      rw [e1]
      simp [h2', show (serVal false marker gap ind1 v n).2.2 = [] from by rw [h1]]
end

/-- JavaScript `text.split("\n")`: the list of lines (an empty text yields
one empty line, a trailing LF yields a final empty line). -/
def splitLines : List Char → List (List Char)
  | [] => [[]]
  | c :: rest =>
    if c = '\n' then [] :: splitLines rest
    else
      match splitLines rest with
      | [] => [[c]]
      | l :: ls => (c :: l) :: ls

/-- The bare marker of index `i`: `randomString + index`. -/
def mkMarker (marker : String) (i : Nat) : String := marker ++ toString i

/-- The quoted marker `"marker+index"` searched for in the serialized text
(src/index.ts line 212). -/
def quotedMk (marker : String) (i : Nat) : List Char :=
  '"' :: (mkMarker marker i).data ++ ['"']

/-- Leading whitespace of the first line containing the bare marker
(src/index.ts lines 218-219); empty when no line contains it. -/
def indentForMarker (marker : String) (i : Nat) (text : List Char) : List Char :=
  match (splitLines text).find? (fun l => containsSub (mkMarker marker i).data l) with
  | some l => l.takeWhile jsWS
  | none => []

/-- One indentation unit (two spaces), as hard-coded by the source. -/
def indentUnit : List Char := [' ', ' ']

/-- The `linesExpression` built for pending string `s`
(src/index.ts lines 220-225): the escaped body is reindented one unit past
`indent`, fenced in backticks, with the closing backtick also one unit past
`indent`. -/
def linesExprOf (dPre dSuf : String) (indent : List Char) (s : String) : List Char :=
  dPre.data ++ [backtickChar] ++ ['\n'] ++ indent ++ indentUnit ++
    replaceAllL ['\n'] ('\n' :: (indent ++ indentUnit)) (escapeBody s).data ++
    ['\n'] ++ indent ++ indentUnit ++ [backtickChar] ++ dSuf.data

/-- The error message thrown when a quoted marker is missing
(src/index.ts line 215). -/
def notFoundMsg (marker : String) (i : Nat) : String :=
  "Marker \"" ++ mkMarker marker i ++ "\" not found in code"

/-- One iteration of the marker-resolution loop (src/index.ts lines
193-227): abort when the quoted marker is absent, otherwise splice the
lines expression over the first occurrence of the quoted marker. -/
def resolveStep (marker dPre dSuf : String) (i : Nat) (s : String)
    (text : List Char) : Except String (List Char) :=
  if containsSub (quotedMk marker i) text = true then
    .ok (replaceFirstSub (quotedMk marker i)
      (linesExprOf dPre dSuf (indentForMarker marker i text) s) text)
  else .error (notFoundMsg marker i)

/-- The full resolution loop, processing pending strings at ascending
indices starting from `i`. -/
def resolveLoop (marker dPre dSuf : String) :
    List String → Nat → List Char → Except String (List Char)
  | [], _, text => .ok text
  | s :: rest, i, text =>
      match resolveStep marker dPre dSuf i s text with
      | .ok t => resolveLoop marker dPre dSuf rest (i + 1) t
      | .error e => .error e

/-- The conversion result: generated code plus the dedent-needed flag. -/
structure JavascriptOutput where
  code : String
  needsDedent : Bool
deriving DecidableEq

/-- The conversion options of `jsonToJavascript`.  The function-valued hooks
(`beforePrettier`, `jsonStringifyReplacer`) and the formatter options are
modelled as absent, matching the claims under verification; the formatter
itself is passed explicitly to `jsonToJavascript` as a black box. -/
structure Opts where
  pre : Option String
  suf : Option String
  usePrettier : Option Bool
  useDedent : Option Bool
  dedentPre : Option String
  dedentSuf : Option String
  space : Option SpaceArg

/-- Options with every field defaulted. -/
def defaultOpts : Opts := ⟨none, none, none, none, none, none, none⟩

/-- Serialization plus prefix/suffix wrapping (src/index.ts lines 167-185):
the wrapped text, the final marker count, and the pending multiline
strings. -/
def wrappedText (marker : String) (j : Json) (o : Opts) :
    String × Nat × List String :=
  let r := serVal (o.useDedent.getD false) marker (gapOf o.space) "" j 0
  ((o.pre.getD "(") ++ r.1 ++ (o.suf.getD ")"), r.2.1, r.2.2)

/-- The text handed to the external formatter when `usePrettier` is on: the
wrapped text after the whole marker-resolution loop has run
(src/index.ts lines 189-231 run the loop first and format afterwards). -/
def formatterInput (marker : String) (j : Json) (o : Opts) :
    Except String String :=
  (resolveLoop marker (o.dedentPre.getD " dedent") (o.dedentSuf.getD "")
      (wrappedText marker j o).2.2 0 (wrappedText marker j o).1.data).map
    (fun t => (⟨t⟩ : String))

/-- Embedding of `jsonToJavascript` (src/index.ts lines 161-246) with the
external formatter `fmt` as an explicit argument and the process-wide
marker string as the `marker` argument: serialize with marker substitution,
wrap, resolve every marker, then format when `usePrettier` is on. -/
def jsonToJavascript (fmt : String → String) (marker : String) (j : Json)
    (o : Opts) : Except String JavascriptOutput :=
  match resolveLoop marker (o.dedentPre.getD " dedent") (o.dedentSuf.getD "")
      (wrappedText marker j o).2.2 0 (wrappedText marker j o).1.data with
  | .error e => .error e
  | .ok t =>
      .ok ⟨if o.usePrettier.getD true then fmt ⟨t⟩ else (⟨t⟩ : String),
        decide (0 < (wrappedText marker j o).2.1)⟩

theorem listStarts_self_append : ∀ (l b : List Char), listStarts (l ++ b) l = true
  | [], b => by cases b <;> rfl
  | c :: l, b => by simp [listStarts, listStarts_self_append l b]

theorem containsSub_append_self :
    ∀ (a n b : List Char), containsSub n (a ++ n ++ b) = true
  | [], n, b => by
      cases n with
      | nil => cases b <;> simp [containsSub, listStarts, List.isEmpty]
      | cons n0 nt =>
          simpa [containsSub] using
            Or.inl (listStarts_self_append (n0 :: nt) b)
  | c :: a', n, b => by
      have ih := containsSub_append_self a' n b
      simp only [containsSub, List.cons_append, Bool.or_eq_true]
      exact Or.inr (by simpa [List.append_assoc] using ih)

theorem substDollar_id (m b a : List Char) :
    ∀ l, noActiveDollar l = true → substDollar m b a l = l
  | [], _ => rfl
  | c :: rest, h => by
      by_cases hc : c = '$'
      · subst hc
        cases rest with
        | nil => rfl
        | cons d rest2 =>
            rw [noActiveDollar.eq_def] at h
            by_cases hd : d = '$' ∨ d = '&' ∨ d = backtickChar ∨ d = aposChar
            · simp [hd] at h
            · simp [hd] at h
              push_neg at hd
              rw [substDollar.eq_def]
              simp [hd.1, hd.2.1, hd.2.2.1, hd.2.2.2,
                substDollar_id m b a rest2 h]
      · rw [noActiveDollar.eq_def] at h
        simp [hc] at h
        rw [substDollar.eq_def]
        simp [hc, substDollar_id m b a rest h]

theorem rfsAux_eq_rflAux (needle repl : List Char)
    (hrep : noActiveDollar repl = true) :
    ∀ (text pre : List Char),
      rfsAux needle repl pre text = rflAux needle repl pre text
  | [], pre => rfl
  | c :: rest, pre => by
      by_cases hg : listStarts (c :: rest) needle = true ∧ needle ≠ []
      · simp [rfsAux, rflAux, hg, substDollar_id _ _ _ repl hrep]
      · simp [rfsAux, rflAux, hg, rfsAux_eq_rflAux needle repl hrep rest (c :: pre)]

theorem replaceFirstSub_eq_lit (needle repl text : List Char)
    (hrep : noActiveDollar repl = true) :
    replaceFirstSub needle repl text = replaceFirstLit needle repl text :=
  rfsAux_eq_rflAux needle repl hrep text []

theorem rfsAux_first (needle repl b : List Char) (hne : needle ≠ []) :
    ∀ (a pre : List Char),
      (∀ k, k < a.length → listStarts ((a ++ needle ++ b).drop k) needle = false) →
      rfsAux needle repl pre (a ++ needle ++ b) =
        pre.reverse ++ a ++ substDollar needle (pre.reverse ++ a) b repl ++ b
  | [], pre, _ => by
      cases needle with
      | nil => exact absurd rfl hne
      | cons n0 nt =>
          have hstart : listStarts ((n0 :: nt) ++ b) (n0 :: nt) = true :=
            listStarts_self_append (n0 :: nt) b
          have hdrop : ((n0 :: nt) ++ b).drop (n0 :: nt).length = b :=
            List.drop_left (n0 :: nt) b
          simp only [List.nil_append, List.cons_append] at *
          rw [rfsAux]
          simp [hstart, hdrop]
  | c :: a', pre, hmin => by
      have h0 : listStarts ((c :: a') ++ needle ++ b) needle = false := by
        simpa using hmin 0 (by simp)
      have hmin' : ∀ k, k < a'.length →
          listStarts ((a' ++ needle ++ b).drop k) needle = false := by
        intro k hk
        simpa [List.drop_succ_cons] using hmin (k + 1) (by simpa using hk)
      have ih := rfsAux_first needle repl b hne a' (c :: pre) hmin'
      simp only [List.cons_append] at h0 ⊢
      rw [rfsAux]
      simp only [h0, false_and, if_false]
      rw [ih]
      simp [List.append_assoc]

theorem replaceFirstSub_first (needle repl a b : List Char) (hne : needle ≠ [])
    (hmin : ∀ k, k < a.length →
      listStarts ((a ++ needle ++ b).drop k) needle = false) :
    replaceFirstSub needle repl (a ++ needle ++ b) =
      a ++ substDollar needle a b repl ++ b := by
  simpa using rfsAux_first needle repl b hne a [] hmin

/-- Counterexample to claim C3 as stated: for the input
`{"greeting": "Hello\nWorld"}` with `useDedent` on, the pending list is
nonempty and the wrapped skeleton does contain the quoted placeholder, yet
the text handed to the external formatter no longer contains it — the
formatter does not see the placeholder tokens. -/
theorem formatter_sees_no_marker_cex :
    (wrappedText "M_" (.obj (.cons "greeting" (.str "Hello\nWorld") .nil))
        ⟨none, none, none, some true, none, none, none⟩).2.2 ≠ [] ∧
      containsSub (quotedMk "M_" 0)
        (wrappedText "M_" (.obj (.cons "greeting" (.str "Hello\nWorld") .nil))
          ⟨none, none, none, some true, none, none, none⟩).1.data = true ∧
      (formatterInput "M_" (.obj (.cons "greeting" (.str "Hello\nWorld") .nil))
          ⟨none, none, none, some true, none, none, none⟩).map
        (fun t => containsSub (quotedMk "M_" 0) t.data) = Except.ok false := by
  refine ⟨by decide, by decide, by rfl⟩

/-- Claim C3 (amended): the order is the reverse of the claim — placeholder
replacement runs on the pre-format wrapped text, and the external formatter
is invoked afterwards, on the fully resolved text: whenever `usePrettier`
is in effect, the result of `jsonToJavascript` is the formatter applied to
`formatterInput`'s resolved text. -/
theorem format_after_resolution (fmt : String → String) (marker : String)
    (j : Json) (o : Opts) (h : o.usePrettier.getD true = true) :
    jsonToJavascript fmt marker j o =
      (formatterInput marker j o).map
        (fun t => ⟨fmt t, decide (0 < (wrappedText marker j o).2.1)⟩) := by
  rcases hres : resolveLoop marker (o.dedentPre.getD " dedent")
      (o.dedentSuf.getD "") (wrappedText marker j o).2.2 0
      (wrappedText marker j o).1.data with e | t <;>
    simp [jsonToJavascript, formatterInput, hres, h, Except.map]

/-- Witness for the amended C3 at the greeting example with a concrete
formatter. -/
theorem format_after_resolution_witness :
    jsonToJavascript (fun s => "X" ++ s) "M_"
        (.obj (.cons "greeting" (.str "Hello\nWorld") .nil))
        ⟨none, none, none, some true, none, none, none⟩ =
      (formatterInput "M_" (.obj (.cons "greeting" (.str "Hello\nWorld") .nil))
          ⟨none, none, none, some true, none, none, none⟩).map
        (fun t => ⟨(fun s => "X" ++ s) t,
          decide (0 < (wrappedText "M_"
            (.obj (.cons "greeting" (.str "Hello\nWorld") .nil))
            ⟨none, none, none, some true, none, none, none⟩).2.1)⟩) :=
  format_after_resolution (fun s => "X" ++ s) "M_"
    (.obj (.cons "greeting" (.str "Hello\nWorld") .nil))
    ⟨none, none, none, some true, none, none, none⟩ rfl

/-- The replacement formula asserted by the spec (§4.2 step 5d): like the
source's `linesExprOf` but with the closing backtick at `indent` itself,
with no extra indentation unit.  Modelled from the spec's words, for
comparison with the source's formula. -/
def specLinesExprOf (dPre dSuf : String) (indent : List Char) (s : String) :
    List Char :=
  dPre.data ++ [backtickChar] ++ ['\n'] ++ indent ++ indentUnit ++
    replaceAllL ['\n'] ('\n' :: (indent ++ indentUnit)) (escapeBody s).data ++
    ['\n'] ++ indent ++ [backtickChar] ++ dSuf.data

/-- Counterexample to claim C4 as stated: at a concrete pending string the
spliced text puts the closing backtick one indentation unit past `indent`
("\n  `"), while the claim's formula puts it at `indent` ("\n`"); the two
texts differ. -/
theorem closing_backtick_indent_cex :
    resolveStep "MK" " dedent" "" 0 "a\nb" ("(\"MK0\")").data =
      Except.ok ("( dedent`\n  a\n  b\n  `)").data ∧
      replaceFirstLit (quotedMk "MK" 0)
          (specLinesExprOf " dedent" ""
            (indentForMarker "MK" 0 ("(\"MK0\")").data) "a\nb")
          ("(\"MK0\")").data = ("( dedent`\n  a\n  b\n`)").data ∧
      ("( dedent`\n  a\n  b\n  `)" : String).data ≠
        ("( dedent`\n  a\n  b\n`)" : String).data := by
  refine ⟨by rfl, by rfl, by decide⟩

/-- Claim C4 (amended): when the quoted marker occurs in the text and the
built replacement contains no active `$`-substitution sequence, the spliced
replacement equals `dedentPrefix ++ backtick ++ newline ++ indent ++ unit ++
reindented-escaped-body ++ newline ++ indent ++ unit ++ backtick ++
dedentSuffix` — the closing backtick sits one indentation unit past
`indent`, not at `indent`. -/
theorem replacement_formula (marker dPre dSuf : String) (i : Nat) (s : String)
    (text : List Char)
    (hfound : containsSub (quotedMk marker i) text = true)
    (hnd : noActiveDollar
      (linesExprOf dPre dSuf (indentForMarker marker i text) s) = true) :
    resolveStep marker dPre dSuf i s text =
      Except.ok (replaceFirstLit (quotedMk marker i)
        (dPre.data ++ [backtickChar] ++ ['\n'] ++
          indentForMarker marker i text ++ indentUnit ++
          replaceAllL ['\n']
            ('\n' :: (indentForMarker marker i text ++ indentUnit))
            (escapeBody s).data ++
          ['\n'] ++ indentForMarker marker i text ++ indentUnit ++
          [backtickChar] ++ dSuf.data) text) := by
  simp only [resolveStep, hfound, if_pos]
  rw [replaceFirstSub_eq_lit _ _ _ hnd]
  rfl

/-- Witness for the amended C4 at a concrete pending string. -/
theorem replacement_formula_witness :
    resolveStep "MK" " dedent" "" 0 "a\nb" ("(\"MK0\")").data =
      Except.ok (replaceFirstLit (quotedMk "MK" 0)
        (" dedent".data ++ [backtickChar] ++ ['\n'] ++
          indentForMarker "MK" 0 ("(\"MK0\")").data ++ indentUnit ++
          replaceAllL ['\n']
            ('\n' :: (indentForMarker "MK" 0 ("(\"MK0\")").data ++ indentUnit))
            (escapeBody "a\nb").data ++
          ['\n'] ++ indentForMarker "MK" 0 ("(\"MK0\")").data ++ indentUnit ++
          [backtickChar] ++ ("" : String).data) ("(\"MK0\")").data) :=
  replacement_formula "MK" " dedent" "" 0 "a\nb" ("(\"MK0\")").data
    (by decide) (by decide)

/-- Claim C5: at each step of the resolution loop, if the quoted marker of
the current ascending index does not occur in the text being resolved the
loop aborts with the marker-not-found error; otherwise exactly the first
occurrence of the quoted marker is replaced and the loop continues with the
next index. -/
theorem marker_resolution (marker dPre dSuf s : String) (rest : List String)
    (i : Nat) (text : List Char) :
    (containsSub (quotedMk marker i) text = false →
      resolveLoop marker dPre dSuf (s :: rest) i text =
        Except.error (notFoundMsg marker i)) ∧
    (∀ a b : List Char, text = a ++ quotedMk marker i ++ b →
      (∀ k, k < a.length →
        listStarts (text.drop k) (quotedMk marker i) = false) →
      resolveLoop marker dPre dSuf (s :: rest) i text =
        resolveLoop marker dPre dSuf rest (i + 1)
          (a ++ substDollar (quotedMk marker i) a b
            (linesExprOf dPre dSuf (indentForMarker marker i text) s) ++ b)) := by
  constructor
  · intro h
    simp [resolveLoop, resolveStep, h]
  · intro a b hab hmin
    subst hab
    have hne : quotedMk marker i ≠ [] := by simp [quotedMk]
    have hcontains : containsSub (quotedMk marker i)
        (a ++ quotedMk marker i ++ b) = true :=
      containsSub_append_self a (quotedMk marker i) b
    have hstep : resolveStep marker dPre dSuf i s (a ++ quotedMk marker i ++ b) =
        Except.ok (replaceFirstSub (quotedMk marker i)
          (linesExprOf dPre dSuf
            (indentForMarker marker i (a ++ quotedMk marker i ++ b)) s)
          (a ++ quotedMk marker i ++ b)) := by
      have hcontains' := hcontains
      rw [List.append_assoc] at hcontains'
      simp [resolveStep, hcontains, hcontains']
    have hfirst := replaceFirstSub_first (quotedMk marker i)
      (linesExprOf dPre dSuf
        (indentForMarker marker i (a ++ quotedMk marker i ++ b)) s) a b hne hmin
    simp only [resolveLoop, hstep]
    rw [hfirst]

/-- Witness for C5: a missing marker aborts with the error, and with two
occurrences of the quoted marker present, the first one is the one
replaced. -/
theorem marker_resolution_witness :
    resolveLoop "MK" " dedent" "" ["x\ny"] 0 ("hello").data =
      Except.error (notFoundMsg "MK" 0) ∧
    resolveLoop "MK" " dedent" "" ["x\ny"] 0
        (("A ").data ++ quotedMk "MK" 0 ++ (" B \"MK0\"").data) =
      resolveLoop "MK" " dedent" "" [] 1
        (("A ").data ++
          substDollar (quotedMk "MK" 0) ("A ").data ((" B \"MK0\"").data)
            (linesExprOf " dedent" ""
              (indentForMarker "MK" 0
                (("A ").data ++ quotedMk "MK" 0 ++ (" B \"MK0\"").data))
              "x\ny") ++ (" B \"MK0\"").data) :=
  ⟨(marker_resolution "MK" " dedent" "" "x\ny" [] 0 ("hello").data).1
      (by decide),
    (marker_resolution "MK" " dedent" "" "x\ny" [] 0
        (("A ").data ++ quotedMk "MK" 0 ++ (" B \"MK0\"").data)).2
      ("A ").data ((" B \"MK0\"").data) rfl (by decide)⟩

/-- Claim C6: in a successful conversion the `needsDedent` flag is true
exactly when the pending-multiline-string list is nonempty; in particular
with `useDedent` off (absent or false) the flag is false. -/
theorem needsDedent_iff_pending (fmt : String → String) (marker : String)
    (j : Json) (o : Opts) (out : JavascriptOutput)
    (h : jsonToJavascript fmt marker j o = .ok out) :
    (out.needsDedent = true ↔ (wrappedText marker j o).2.2 ≠ []) ∧
      (o.useDedent.getD false = false → out.needsDedent = false) := by
  have hcnt : (wrappedText marker j o).2.1 =
      (wrappedText marker j o).2.2.length := by
    simp only [wrappedText]
    simpa using serVal_count (o.useDedent.getD false) marker (gapOf o.space) "" j 0
  rcases hres : resolveLoop marker (o.dedentPre.getD " dedent")
      (o.dedentSuf.getD "") (wrappedText marker j o).2.2 0
      (wrappedText marker j o).1.data with e | t
  · rw [jsonToJavascript, hres] at h
    cases h
  · rw [jsonToJavascript, hres] at h
    simp only [Except.ok.injEq] at h
    constructor
    · rw [← h]
      simp only [decide_eq_true_eq, hcnt]
      exact List.length_pos
    · intro hud
      rw [← h]
      have hser := serVal_noDedent marker (gapOf o.space) "" j 0
      have : (wrappedText marker j o).2.1 = 0 := by
        simp only [wrappedText, hud]
        rw [hser]
      simp [this]

/-- Witness for C6 at the greeting example with `useDedent` on and the
formatter disabled. -/
theorem needsDedent_iff_pending_witness :
    ((⟨"(\x7b\"greeting\": dedent`\n  Hello\n  World\n  `\x7d)", true⟩ :
        JavascriptOutput).needsDedent = true ↔
      (wrappedText "M_" (.obj (.cons "greeting" (.str "Hello\nWorld") .nil))
        ⟨none, none, some false, some true, none, none, none⟩).2.2 ≠ []) ∧
    ((⟨none, none, some false, some true, none, none, none⟩ : Opts).useDedent.getD
        false = false →
      (⟨"(\x7b\"greeting\": dedent`\n  Hello\n  World\n  `\x7d)", true⟩ :
        JavascriptOutput).needsDedent = false) :=
  needsDedent_iff_pending (fun s => s) "M_"
    (.obj (.cons "greeting" (.str "Hello\nWorld") .nil))
    ⟨none, none, some false, some true, none, none, none⟩
    ⟨"(\x7b\"greeting\": dedent`\n  Hello\n  World\n  `\x7d)", true⟩ (by rfl)

/-- Claim C10: with `usePrettier = false` (and the function-valued hooks
absent, as modelled), the conversion is a pure function of the JSON value,
the options and the marker setting: the result does not depend on the
formatter, the only remaining environmental input, so any two invocations
with the same arguments return identical code and identical `needsDedent`
flags. -/
theorem deterministic_without_formatter (fmt fmt' : String → String)
    (marker : String) (j : Json) (o : Opts)
    (h : o.usePrettier = some false) :
    jsonToJavascript fmt marker j o = jsonToJavascript fmt' marker j o := by
  rcases hres : resolveLoop marker (o.dedentPre.getD " dedent")
      (o.dedentSuf.getD "") (wrappedText marker j o).2.2 0
      (wrappedText marker j o).1.data with e | t <;>
    simp [jsonToJavascript, hres, h]

/-- Witness for C10 with two visibly different formatters. -/
theorem deterministic_without_formatter_witness :
    jsonToJavascript (fun s => "A" ++ s) "M_"
        (.obj (.cons "greeting" (.str "Hello\nWorld") .nil))
        ⟨none, none, some false, some true, none, none, none⟩ =
      jsonToJavascript (fun _ => "B") "M_"
        (.obj (.cons "greeting" (.str "Hello\nWorld") .nil))
        ⟨none, none, some false, some true, none, none, none⟩ :=
  deterministic_without_formatter (fun s => "A" ++ s) (fun _ => "B") "M_"
    (.obj (.cons "greeting" (.str "Hello\nWorld") .nil))
    ⟨none, none, some false, some true, none, none, none⟩ rfl

end J2J
